import Mathlib

/-!
Verification development for the `mdx` chunked ingestion engine
(`mdx/ingest.py`, class `Simulation`).  Python string, list and parsing
primitives are embedded over `List Char` / `String`; fallible Python code
(exceptions) is embedded as `Option` / `Except`.  Numeric values parsed by
Python `int()` / `float()` are embedded as `Int` / `ℚ`.
-/

deriving instance DecidableEq for Except

/-! ## Python string and list primitives -/

/-- Python whitespace test used by `str.split()` / `str.strip()`. -/
def isWsChar (c : Char) : Bool :=
  c = ' ' || c = '\t' || c = '\n' || c = '\r' || c = '\x0b' || c = '\x0c'

/-- Accumulator pass for whitespace splitting (tokens collected reversed). -/
def wsTokensAux : List Char → List Char → List (List Char)
  | [], acc => if acc.isEmpty then [] else [acc.reverse]
  | c :: rest, acc =>
    if isWsChar c then
      if acc.isEmpty then wsTokensAux rest [] else acc.reverse :: wsTokensAux rest []
    else wsTokensAux rest (c :: acc)

/-- Python `str.split()` with no argument: split on whitespace runs, no empties. -/
def pySplitWs (s : List Char) : List (List Char) := wsTokensAux s []

/-- Python `str.strip()`: remove leading and trailing whitespace. -/
def stripWs (s : List Char) : List Char :=
  ((s.dropWhile isWsChar).reverse.dropWhile isWsChar).reverse

/-- Split on a single character, keeping empty pieces (Python `str.split(c)`
for a one-character separator). -/
def splitOnChar (sep : Char) : List Char → List (List Char)
  | [] => [[]]
  | c :: rest =>
    let r := splitOnChar sep rest
    if c = sep then [] :: r
    else
      match r with
      | [] => [[c]]
      | piece :: more => (c :: piece) :: more

/-- Fuel-driven worker for multi-character `str.split(sep)`. -/
def splitOnListAux (sep : List Char) : Nat → List Char → List Char → List (List Char)
  | 0, s, acc => [acc.reverse ++ s]
  | fuel + 1, s, acc =>
    if sep.isPrefixOf s ∧ sep ≠ [] then
      acc.reverse :: splitOnListAux sep fuel (s.drop sep.length) []
    else
      match s with
      | [] => [acc.reverse]
      | c :: rest => splitOnListAux sep fuel rest (c :: acc)

/-- Python `str.split(sep)` for a non-empty separator string: split on each
non-overlapping occurrence, left to right, keeping empty pieces. -/
def pySplitOn (sep : List Char) (s : List Char) : List (List Char) :=
  splitOnListAux sep (s.length + 1) s []

/-- Python `str.startswith(p)`. -/
def pyStartsWith (p : List Char) (s : List Char) : Bool := p.isPrefixOf s

/-- Map a fallible step over a list, failing as a whole on the first
failure (a raised exception aborts the surrounding loop / bag compute). -/
def optionMapList {α β : Type} (f : α → Option β) : List α → Option (List β)
  | [] => some []
  | a :: l =>
    match f a, optionMapList f l with
    | some b, some bs => some (b :: bs)
    | _, _ => none

/-- `optionMapList` for steps carrying a typed error. -/
def exceptMapList {ε α β : Type} (f : α → Except ε β) : List α → Except ε (List β)
  | [] => .ok []
  | a :: l =>
    match f a with
    | .error e => .error e
    | .ok b =>
      match exceptMapList f l with
      | .error e => .error e
      | .ok bs => .ok (b :: bs)

/-- Fold a fallible step over a list, stopping at the first raised error. -/
def exceptFoldl {ε γ α : Type} (f : γ → α → Except ε γ) : γ → List α → Except ε γ
  | acc, [] => .ok acc
  | acc, a :: l =>
    match f acc a with
    | .error e => .error e
    | .ok acc2 => exceptFoldl f acc2 l

/-- Value of a decimal digit character. -/
def digitVal (c : Char) : Nat := c.toNat - '0'.toNat

/-- Natural number denoted by a digit string. -/
def digitsToNat (l : List Char) : Nat := l.foldl (fun a c => a * 10 + digitVal c) 0

/-- Python `int(s)`: strip whitespace, optional sign, then decimal digits;
any other shape raises `ValueError`, embedded as `none`. -/
def pyInt (s : List Char) : Option Int :=
  let t := stripWs s
  let sg : Int × List Char :=
    match t with
    | '-' :: rest => (-1, rest)
    | '+' :: rest => (1, rest)
    | _ => (1, t)
  if sg.2 = [] then none
  else if sg.2.all Char.isDigit then some (sg.1 * digitsToNat sg.2) else none

/-- Python `float(s)` on the decimal forms appearing in the ingested dumps:
optional sign, integer digits, optional fractional part.  (Exponent notation
is not needed by any statement below.)  Failure (`ValueError`) is `none`.
The sign is folded into the numerator of `mkRat`, so no `ℚ` arithmetic is
performed during parsing. -/
def pyFloat (s : List Char) : Option ℚ :=
  let t := stripWs s
  let sg : Int × List Char :=
    match t with
    | '-' :: rest => (-1, rest)
    | '+' :: rest => (1, rest)
    | _ => (1, t)
  let ip := sg.2.takeWhile Char.isDigit
  let rest := sg.2.drop ip.length
  match rest with
  | [] => if ip = [] then none else some (mkRat (sg.1 * digitsToNat ip) 1)
  | '.' :: fp =>
    if fp.all Char.isDigit ∧ (ip ≠ [] ∨ fp ≠ []) then
      some (mkRat (sg.1 * (digitsToNat ip * 10 ^ fp.length + digitsToNat fp)) (10 ^ fp.length))
    else none
  | _ => none

/-- Clamp of one Python slice endpoint against a list length: negative
indices count from the end, and endpoints are clipped into `[0, len]`. -/
def pySliceIdx (len : Nat) (i : Int) : Nat :=
  if i < 0 then ((len : Int) + i).toNat else min i.toNat len

/-- Python slice `l[a:b]` (with possibly negative endpoints). -/
def pySlice {α : Type} (l : List α) (a b : Int) : List α :=
  (l.take (pySliceIdx l.length b)).drop (pySliceIdx l.length a)

/-! ## Bond frame parser (`Simulation.__process_bond_step`)

Each bond record line is tokenized; the final three tokens are discarded
(`line.split()[:-3]`); token 0 is the atom id, token 2 the bond count `k`,
tokens `3 .. 3+k` the neighbor ids and tokens from `k+4` on the bond-order
values.  The accumulated row/column/value lists are handed to
`sparse.COO((i, j), v, shape=(n_atoms, n_atoms))`, whose standard
coordinate-construction semantics (equal-length coordinate and data lists,
indices within the shape, duplicate coordinates summed) is embedded by
`cooTriples` and `BondFrameC.entry`. -/

/-- The four slices the bond parser extracts from one record line. -/
structure BondLineParts where
  atomId : Int
  k : Int
  nbs : List Int
  vals : List ℚ
deriving DecidableEq

/-- Slice one bond record line exactly as `__process_bond_step` does. -/
def bondLineData (line : String) : Option BondLineParts :=
  let toks := pySplitWs line.data
  let l := pySlice toks 0 (-3)
  do
    let t0 ← l.get? 0
    let atomId ← pyInt t0
    let t2 ← l.get? 2
    let k ← pyInt t2
    let nbs ← optionMapList pyInt (pySlice l 3 (3 + k))
    let vals ← optionMapList pyFloat (pySlice l (k + 4) l.length)
    some ⟨atomId, k, nbs, vals⟩

/-- Row indices contributed by one record: `[atom_id - 1] * k`. -/
def bondRowIdx (p : BondLineParts) : List Int := List.replicate p.k.toNat (p.atomId - 1)

/-- Column indices contributed by one record: each neighbor id minus one. -/
def bondColIdx (p : BondLineParts) : List Int := p.nbs.map (fun x => x - 1)

/-- `sparse.COO` coordinate validation: the row, column and data lists must
have equal lengths and every coordinate must lie inside the shape. -/
def cooTriples (n : Nat) (is js : List Int) (vs : List ℚ) :
    Option (List (Int × Int × ℚ)) :=
  if is.length = js.length ∧ js.length = vs.length then
    let ts := is.zip (js.zip vs)
    if ts.all (fun t =>
        decide (0 ≤ t.1 ∧ t.1 < (n : Int)) && decide (0 ≤ t.2.1 ∧ t.2.1 < (n : Int))) then
      some ts
    else none
  else none

/-- A parsed bond frame: timestep plus the `n × n` sparse matrix, kept as
its validated coordinate triples. -/
structure BondFrameC where
  timestep : Int
  n : Nat
  triples : List (Int × Int × ℚ)
deriving DecidableEq

/-- Matrix entry of the COO construction: duplicate coordinates are summed. -/
def BondFrameC.entry (f : BondFrameC) (r c : Int) : ℚ :=
  ((f.triples.filter (fun t => decide (t.1 = r) && decide (t.2.1 = c))).map
    (fun t => t.2.2)).sum

/-- `Simulation.__process_bond_step`: the first kept line is the timestep,
every further line a bond record; the accumulated coordinate lists build a
sparse matrix of shape `(n_atoms, n_atoms)`. -/
def processBondStep (n : Nat) (stepText : List String) : Option BondFrameC :=
  match stepText with
  | [] => none
  | t :: rest => do
    let ts ← pyInt t.data
    let parts ← optionMapList bondLineData rest
    let triples ← cooTriples n ((parts.map bondRowIdx).flatten)
      ((parts.map bondColIdx).flatten) ((parts.map BondLineParts.vals).flatten)
    some ⟨ts, n, triples⟩

/-- Record alignment: the sliced neighbor and value lists of a record both
have the declared bond count as length. -/
def bondAligned (line : String) : Bool :=
  match bondLineData line with
  | none => true
  | some p => decide (p.nbs.length = p.k.toNat) && decide (p.vals.length = p.k.toNat)

/-- Contribution of one record line to matrix entry `(r, c)`: the sum of its
bond-order values at row `atom_id - 1 = r`, column `neighbor_id - 1 = c`. -/
def lineContrib (r c : Int) (line : String) : ℚ :=
  match bondLineData line with
  | none => 0
  | some p =>
    (((p.nbs.zip p.vals).filter
        (fun q => decide (p.atomId - 1 = r) && decide (q.1 - 1 = c))).map
      (fun q => q.2)).sum

/-! ## Species frame parser (`Simulation.__process_species_step`)

The segment is a header line and a data line.  The data line's first token
is the timestep (`data.pop(0)`), the next two are the molecule and species
totals, and the remaining tokens are zipped positionally with the header's
species names (header tokens from position 2 on).  Python's `zip` truncates
to the shorter operand.  The mapping is kept as an association list in
insertion order (a Python `dict`; the observed headers have distinct
species names). -/

/-- A parsed species frame. -/
structure SpeciesFrame where
  timestep : Int
  noMoles : Int
  noSpecies : Int
  species : List (String × Int)
deriving DecidableEq

/-- `Simulation.__process_species_step`.  Unpacking `header, data = ...`
demands exactly two lines (`ValueError` otherwise); every `int(...)` call
can fail; `zip` truncates to the shorter list. -/
def processSpeciesStep (stepText : List String) : Option SpeciesFrame :=
  match stepText with
  | [h, d] =>
    let header := pySplitWs h.data
    let data := pySplitWs d.data
    match data with
    | [] => none
    | t :: data' => do
      let ts ← pyInt t
      let m0 ← data'.get? 0
      let m ← pyInt m0
      let s0 ← data'.get? 1
      let s ← pyInt s0
      let pairs := (header.drop 2).zip (data'.drop 2)
      let sp ← optionMapList (fun q => (pyInt q.2).map (fun v => (String.mk q.1, v))) pairs
      some ⟨ts, m, s, sp⟩
  | _ => none

/-! ## Chunk validation and data-file resolution
(`Simulation.__decide_chunks`, `Simulation.__get_data_files`) -/

/-- The `chunks` constructor argument: `None`, a single `int`, or a list. -/
inductive GivenChunks where
  | noneGiven : GivenChunks
  | single : Int → GivenChunks
  | chunkList : List Int → GivenChunks

/-- Failure modes of chunk decision / path resolution: `InvalidChunks`,
`KeyError` on an unknown data-kind tag, and `check_path`'s failing
`assert` for a missing file. -/
inductive ResolveError where
  | invalidChunks
  | keyError
  | assertionError
deriving DecidableEq

/-- `Simulation.__decide_chunks`: `None` means all chunks; an `int` becomes
a singleton list; a list is returned unchanged when it is a subset of
`range(n_chunks)` and raises `InvalidChunks` otherwise. -/
def decideChunks (g : GivenChunks) (metaChunks : Nat) : Except ResolveError (List Int) :=
  let valid := (List.range metaChunks).map Int.ofNat
  match g with
  | .noneGiven => .ok valid
  | .single i => if [i].all (fun c => decide (c ∈ valid)) then .ok [i] else .error .invalidChunks
  | .chunkList l => if l.all (fun c => decide (c ∈ valid)) then .ok l else .error .invalidChunks

/-- The `filetypes` table of `__get_data_files`: data-kind tag to filename
prefix and extension (dict lookup; `KeyError` for an unknown tag). -/
def fileKindInfo : String → Option (String × String)
  | "trajectory" => some ("dat_trajectory", ".dump")
  | "bonds" => some ("dat_bonds", ".reaxff")
  | "species" => some ("dat_species", ".out")
  | "log" => some ("log_out", "")
  | _ => none

/-- Resolved path for one chunk:
`os.path.join(base, f"{chunk}/{prefix}_{sim_id}_{chunk}{ext}")`. -/
def chunkPath (base simId pre ext : String) (c : Int) : String :=
  base ++ "/" ++ toString c ++ "/" ++ pre ++ "_" ++ simId ++ "_" ++ toString c ++ ext

/-- `Simulation.__get_data_files`: one path per chunk, in the order of the
chunk list, each checked for existence (`check_path`'s assert) against the
filesystem `fs`. -/
def getDataFiles (fs : List String) (base simId kind : String) (chunks : List Int) :
    Except ResolveError (List String) :=
  match fileKindInfo kind with
  | none => .error .keyError
  | some pr =>
    exceptMapList (fun c =>
      let p := chunkPath base simId pr.1 pr.2 c
      if p ∈ fs then Except.ok p else Except.error .assertionError) chunks

/-- Chunk decision followed by file resolution: the path-resolution contract
of the ingestion engine. -/
def resolveDataFiles (fs : List String) (base simId kind : String)
    (g : GivenChunks) (n : Nat) : Except ResolveError (List String) :=
  match decideChunks g n with
  | .error e => .error e
  | .ok chunks => getDataFiles fs base simId kind chunks

/-! ## Trajectory frame parser (`Simulation.__process_traj_step`)

Each item of a segment is matched by
`re.search("([A-Z ]*)([A-z ]*)\n((.*[\n]?)*)", item)`.  Since both capture
classes accept the empty string, `re.search` matches at the earliest
position from which a run of `[A-z ]` characters reaches a newline: the
match therefore sits at the start of the longest `[A-z ]`-suffix of the
text before the first newline; group 1 greedily takes its `[A-Z ]`-prefix
(the label), group 2 the remainder of that line (the header) and group 3
everything after the newline (the body).  If the item has no newline,
`re.search` returns `None` and `.group` raises `AttributeError`. -/

/-- Character class `[A-Z ]` of the label group. -/
def trajC1char (c : Char) : Bool := decide ('A' ≤ c ∧ c ≤ 'Z') || decide (c = ' ')

/-- Character class `[A-z ]` of the header group (ASCII 65–122 plus space,
so including `[ \ ] ^ _` and the backquote). -/
def trajC2char (c : Char) : Bool :=
  decide (65 ≤ c.toNat ∧ c.toNat ≤ 122) || decide (c = ' ')

/-- The `(label, header, body)` triple produced by the item regex, or
`none` when `re.search` finds no match. -/
def itemSearch (item : String) : Option (String × String × String) :=
  let cs := item.data
  let before := cs.takeWhile (fun c => decide (c ≠ '\n'))
  let rest := cs.dropWhile (fun c => decide (c ≠ '\n'))
  match rest with
  | [] => none
  | _ :: after =>
    let run := (before.reverse.takeWhile trajC2char).reverse
    let lab := run.takeWhile trajC1char
    some (String.mk lab, String.mk (run.drop lab.length), String.mk after)

/-- The allowed labels (`valid_items`). -/
def validTrajItems : List String := ["NUMBER OF ATOMS", "BOX BOUNDS", "ATOMS", "DIMENSIONS"]

/-- Insert a row into an id-sorted atom table, before the first row of
greater-or-equal id. -/
def insertRowSorted (x : Int × List String) :
    List (Int × List String) → List (Int × List String)
  | [] => [x]
  | y :: ys => if x.1 ≤ y.1 then x :: y :: ys else y :: insertRowSorted x ys

/-- Sort an atom table ascending by id. -/
def sortByAtomId (l : List (Int × List String)) : List (Int × List String) :=
  l.foldr insertRowSorted []

/-- The `ATOMS` body:
`pd.read_csv(io.StringIO(data), sep=" ", names=header.split()).set_index("id").sort_index()`,
modelled for the single-space-separated dump rows this parser consumes:
blank lines are skipped, each row is keyed by its `id` column and the table
is sorted ascending by id; a missing `id` column is `set_index`'s
`KeyError`.  Cell values are kept as raw tokens. -/
def parseAtoms (header data : String) : Option (List (Int × List String)) :=
  let names := (pySplitWs header.data).map String.mk
  match names.findIdx? (fun nm => decide (nm = "id")) with
  | none => none
  | some idIdx =>
    let lines := (splitOnChar '\n' data.data).filter (fun l => decide (l ≠ []))
    do
      let rows ← optionMapList (fun l =>
        let fields := (splitOnChar ' ' l).map String.mk
        match fields.get? idIdx with
        | none => none
        | some idTok => (pyInt idTok.data).map (fun v => (v, fields))) lines
      some (sortByAtomId rows)

/-- The `BOX BOUNDS` payload: bounds style tokens and per-axis float rows. -/
structure BoxData where
  style : List String
  bounds : List (List ℚ)
deriving DecidableEq

/-- A parsed trajectory frame.  The Python frame dict starts as
`{"timestep": "", "n_atoms": "", "atomic": ""}`; the empty-string
placeholders of fields never assigned are embedded as `none`. -/
structure TrajFrame where
  timestep : Int
  nAtoms : Option Int
  box : Option BoxData
  atomic : Option (List (Int × List String))
deriving DecidableEq

/-- Python exceptions surfaced by the trajectory parser. -/
inductive PyErr where
  | indexError
  | valueError
  | attributeError
  | keyError
  | invalidItem
deriving DecidableEq

/-- Process one matched `ITEM:` triple: the stripped label is validated
first (`InvalidItem` for an unknown label), then the `BOX BOUNDS` /
`ATOMS` branches run; the `NUMBER OF ATOMS` extraction is commented out in
the source, so that label (like `DIMENSIONS`) leaves the frame unchanged. -/
def processTrajItemCore (frame : TrajFrame) (lab header data : String) :
    Except PyErr TrajFrame :=
  if String.mk (stripWs lab.data) ∉ validTrajItems then .error .invalidItem
  else if String.mk (stripWs lab.data) = "BOX BOUNDS" then
    match optionMapList (fun ln => optionMapList pyFloat (pySplitWs ln))
        ((splitOnChar '\n' data.data).dropLast) with
    | none => .error .valueError
    | some bs =>
      .ok { frame with box := some ⟨(pySplitWs header.data).map String.mk, bs⟩ }
  else if String.mk (stripWs lab.data) = "ATOMS" then
    match parseAtoms header data with
    | none => .error .keyError
    | some tbl => .ok { frame with atomic := some tbl }
  else .ok frame

/-- Process one `ITEM:` block: regex match (`AttributeError` when it
fails), then the labelled-triple step. -/
def processTrajItem (frame : TrajFrame) (item : String) : Except PyErr TrajFrame :=
  match itemSearch item with
  | none => .error .attributeError
  | some (lab, header, data) => processTrajItemCore frame lab header data

/-- `Simulation.__process_traj_step`: pop the timestep
(`int(step_text.pop(0).strip())`), then process the items in order. -/
def processTrajStep (stepText : List String) : Except PyErr TrajFrame :=
  match stepText with
  | [] => .error .indexError
  | t :: items =>
    match pyInt (stripWs t.data) with
    | none => .error .valueError
    | some ts => exceptFoldl processTrajItem ⟨ts, none, none, none⟩ items

/-- The stripped label the regex extracts from an item, when it matches. -/
def labelOf (item : String) : Option String :=
  (itemSearch item).map (fun x => String.mk (stripWs x.1.data))

/-- True when the item's extracted label (if any) is an allowed one. -/
def labelIsValid (item : String) : Bool :=
  match labelOf item with
  | some l => decide (l ∈ validTrajItems)
  | none => true

/-- True when some item of the list carries a label outside the allowed set. -/
def hasInvalidLabel (items : List String) : Bool :=
  items.any (fun it =>
    match labelOf it with
    | some l => decide (l ∉ validTrajItems)
    | none => false)

/-- Body well-formedness of one matched item triple: for the two labels
whose bodies are parsed, the body parse succeeds. -/
def trajBodyOkCore (lab header data : String) : Bool :=
  if String.mk (stripWs lab.data) = "BOX BOUNDS" then
    (optionMapList (fun ln => optionMapList pyFloat (pySplitWs ln))
      ((splitOnChar '\n' data.data).dropLast)).isSome
  else if String.mk (stripWs lab.data) = "ATOMS" then (parseAtoms header data).isSome
  else true

/-- Structural well-formedness of one item: the regex matches, and the
body parses. -/
def trajBodyOk (item : String) : Bool :=
  match itemSearch item with
  | none => false
  | some (lab, header, data) => trajBodyOkCore lab header data

/-! ## Chunked read pipelines (`read_bonds`, `read_species`, `read_trajectory`)

`db.read_text(paths, linedelimiter=d)` splits each file into elements each
ending with the delimiter (the last possibly without it), concatenated in
the order the paths were resolved.  The `.distinct(key=timestep)`
deduplication steps present in an earlier revision are commented out in the
source (`# .distinct(key=lambda x: x["timestep"]) ; causes memory leak on
nanosecond scale data`), so the pipelines parse every kept segment. -/

/-- Split a file's text like `db.read_text(..., linedelimiter=delim)`:
every piece but the last carries the delimiter at its end. -/
def splitKeepEnd (delim : List Char) (text : List Char) : List String :=
  let ps := pySplitOn delim text
  (ps.dropLast.map (fun p => String.mk (p ++ delim))) ++ [String.mk (ps.getLastD [])]

/-- The `read_bonds` segment pipeline before parsing: remove bare-delimiter
elements, split each element into lines, drop comment and empty lines, and
remove now-empty elements. -/
def keptBondStepTexts (files : List String) : List (List String) :=
  let segs := (files.map (fun t => splitKeepEnd "# Timestep".data t.data)).flatten
  let segs := segs.filter (fun s => decide (s ≠ "# Timestep"))
  let stepTexts := segs.map (fun x =>
    ((splitOnChar '\n' x.data).map String.mk).filter
      (fun line => !(pyStartsWith "#".data line.data || decide (line = ""))))
  stepTexts.filter (fun st => decide (st ≠ []))

/-- The `read_bonds` pipeline output (the final `dict(timestep=...,
bonds=da.from_array(...))` wrapper re-packages the same two fields and is
embedded as the frame itself).  A parse failure anywhere surfaces when the
bag is computed, so the whole series is an `Option`. -/
def readBondsSeries (n : Nat) (files : List String) : Option (List BondFrameC) :=
  optionMapList (processBondStep n) (keptBondStepTexts files)

/-- The `read_species` segment pipeline before parsing: each element loses
its first character (`x[1:]`), is split into lines dropping the last
(`split("\n")[:-1]`), and empty elements are removed. -/
def keptSpeciesStepTexts (files : List String) : List (List String) :=
  let segs := (files.map (fun t => splitKeepEnd "# Timestep".data t.data)).flatten
  let stepTexts := segs.map (fun x =>
    (((splitOnChar '\n' (x.data.drop 1))).dropLast).map String.mk)
  stepTexts.filter (fun st => decide (st ≠ []))

/-- The `read_species` pipeline output. -/
def readSpeciesSeries (files : List String) : Option (List SpeciesFrame) :=
  optionMapList processSpeciesStep (keptSpeciesStepTexts files)

/-- The `read_trajectory` segment pipeline before parsing: remove bare
`"ITEM: TIMESTEP"` elements, split each element on `"ITEM: "`, and drop a
trailing `"TIMESTEP"` piece (the delimiter of the next segment). -/
def keptTrajStepTexts (files : List String) : List (List String) :=
  let segs := (files.map (fun t => splitKeepEnd "TIMESTEP".data t.data)).flatten
  let segs := segs.filter (fun s => decide (s ≠ "ITEM: TIMESTEP"))
  let items := segs.map (fun x => (pySplitOn "ITEM: ".data x.data).map String.mk)
  items.map (fun x => if x.getLastD "" = "TIMESTEP" then x.dropLast else x)

/-- The `read_trajectory` pipeline output for `format="frame"`. -/
def readTrajFrameSeries (files : List String) : Except PyErr (List TrajFrame) :=
  exceptMapList processTrajStep (keptTrajStepTexts files)

/-! ## Thermo reader (`Simulation.read_thermo`) -/

/-- Parse one chunk's log file: the table lives between the first `"Step"`
marker and the `"Loop"` marker; the line containing `"Step"` provides the
remaining column names; every following line is parsed into floats and the
final (artifact) row is discarded. -/
def parseThermoLog (text : String) : Option (List String × List (List ℚ)) :=
  let corpus := (pySplitOn "Loop".data text.data).headD []
  match (pySplitOn "Step".data corpus).get? 1 with
  | none => none
  | some piece =>
    let lines := splitOnChar '\n' piece
    let headers := "Step" :: (pySplitWs (lines.headD [])).map String.mk
    do
      let rowsAll ← optionMapList (fun l => optionMapList pyFloat (pySplitWs l)) (lines.drop 1)
      some (headers, rowsAll.dropLast)

/-- `pd.DataFrame.drop_duplicates(keep="first")` on a key: keep each row
whose key has not occurred earlier (fuel-driven so that the definition
reduces; the fuel `l.length` always suffices). -/
def dropDupByFuel {α β : Type} [DecidableEq β] (key : α → β) :
    Nat → List α → List α
  | 0, _ => []
  | _, [] => []
  | fuel + 1, x :: xs =>
    x :: dropDupByFuel key fuel (xs.filter (fun y => decide (key y ≠ key x)))

/-- Keep-first deduplication by key. -/
def pandasDropDupBy {α β : Type} [DecidableEq β] (key : α → β) (l : List α) : List α :=
  dropDupByFuel key l.length l

/-- The `Step` cell of a row: the first column (the headers are built as
`"Step" :: _`). -/
def thermoStep (row : List ℚ) : ℚ := row.headD 0

/-- The deduplication key of `drop_duplicates(["Step"])`: a labelled row's
`Step` cell. -/
def thermoKey (r : Nat × List ℚ) : ℚ := thermoStep r.2

/-- The concatenation stage of `read_thermo`: parse every log, stack the
rows (each `pd.DataFrame` carries its own dense 0-based index, which
`pd.concat` preserves) and append the derived `Boxtime = Step * step_size`
column.  `pd.concat` aligns columns by name; the chunk logs of one
simulation share a header, so differing headers are not modelled. -/
def thermoConcat (texts : List String) (stepSize : ℚ) :
    Option (List String × List (Nat × List ℚ)) := do
  let parsed ← optionMapList parseThermoLog texts
  let headers := (parsed.headD (["Step"], [])).1
  if parsed.all (fun p => decide (p.1 = headers) && p.2.all (fun r => decide (r.length = p.1.length))) then
    let rows := (parsed.map (fun p => p.2.enum)).flatten
    let withBox := rows.map (fun r => (r.1, r.2 ++ [thermoStep r.2 * stepSize]))
    some (headers ++ ["Boxtime"], withBox)
  else none

/-- `read_thermo`'s merged table: concatenate, deduplicate by the `Step`
column keeping the first occurrence, and `reset_index(drop=True)` to a
dense 0-based row index. -/
def thermoTable (texts : List String) (stepSize : ℚ) :
    Option (List String × List (Nat × List ℚ)) := do
  let c ← thermoConcat texts stepSize
  let dd := pandasDropDupBy thermoKey c.2
  some (c.1, (dd.map Prod.snd).enum)

/-! ## `read_trajectory` control flow and eager/lazy storage -/

/-- Errors surfaced by `read_trajectory` before any parsing happens. -/
inductive ReadTrajError where
  | keyError
  | assertionError
  | invalidFormat
deriving DecidableEq

/-- `VALID_TRAJ_FORMATS`. -/
def validTrajFormats : List String := ["xarray", "frame"]

/-- Walk the resolved paths in order, recording each `check_path`
existence check; a missing file stops the walk with the failed assert. -/
def checkPathsTrace (fs : List String) : List String → List String × Except ReadTrajError Unit
  | [] => ([], .ok ())
  | p :: ps =>
    if p ∈ fs then
      let r := checkPathsTrace fs ps
      (p :: r.1, r.2)
    else ([p], .error .assertionError)

/-- The statement-order skeleton of `read_trajectory` on an
already-validated chunk list: the corpus expression runs first, resolving
and existence-checking every file (`__get_data_files` with `check_path`);
only afterwards does the `format` dispatch run, whose `else` branch raises
`InvalidFormat`.  The returned list is the I/O trace (one entry per
existence check, in execution order). -/
def readTrajectoryTrace (fs : List String) (base simId : String)
    (chunks : List Int) (format : String) : List String × Except ReadTrajError Unit :=
  match fileKindInfo "trajectory" with
  | none => ([], .error .keyError)
  | some pr =>
    let paths := chunks.map (chunkPath base simId pr.1 pr.2)
    let t := checkPathsTrace fs paths
    match t.2 with
    | .error e => (t.1, .error e)
    | .ok _ =>
      if format = "xarray" then (t.1, .ok ())
      else if format = "frame" then (t.1, .ok ())
      else (t.1, .error .invalidFormat)

/-- An attribute value of the `Simulation` object after a `read_*` call:
either the still-lazy dask bag (a thunk) or the materialized result of
`corpus.compute()`. -/
inductive Stored (pipe val : Type) where
  | lazyPipe : pipe → Stored pipe val
  | materialized : val → Stored pipe val

/-- Whether the stored attribute is a materialized value. -/
def Stored.isMaterialized {pipe val : Type} : Stored pipe val → Bool
  | .lazyPipe _ => false
  | .materialized _ => true

/-- `read_bonds` storage: `self.bonds = corpus.compute() if self.eager else
corpus`. -/
def readBondsStore (eager : Bool) (n : Nat) (files : List String) :
    Stored (Unit → Option (List BondFrameC)) (Option (List BondFrameC)) :=
  if eager then .materialized (readBondsSeries n files)
  else .lazyPipe (fun _ => readBondsSeries n files)

/-- `read_species` storage: same eager/lazy switch. -/
def readSpeciesStore (eager : Bool) (files : List String) :
    Stored (Unit → Option (List SpeciesFrame)) (Option (List SpeciesFrame)) :=
  if eager then .materialized (readSpeciesSeries files)
  else .lazyPipe (fun _ => readSpeciesSeries files)

/-- `read_trajectory` storage (`format="frame"`): same eager/lazy switch. -/
def readTrajStore (eager : Bool) (files : List String) :
    Stored (Unit → Except PyErr (List TrajFrame)) (Except PyErr (List TrajFrame)) :=
  if eager then .materialized (readTrajFrameSeries files)
  else .lazyPipe (fun _ => readTrajFrameSeries files)

/-- `read_thermo` storage: `self.thermo = thermo_data` unconditionally —
the table is built by an eager `for` loop over the log files and stored
materialized whatever the `eager` flag says. -/
def readThermoStore (_eager : Bool) (texts : List String) (stepSize : ℚ) :
    Stored (Unit → Option (List String × List (Nat × List ℚ)))
      (Option (List String × List (Nat × List ℚ))) :=
  .materialized (thermoTable texts stepSize)

/-! ## General lemmas about the fallible-map combinators -/

theorem optionMapList_cons_some {α β : Type} (f : α → Option β) (a : α) (l : List α)
    (r : List β) (h : optionMapList f (a :: l) = some r) :
    ∃ b bs, f a = some b ∧ optionMapList f l = some bs ∧ r = b :: bs := by
  unfold optionMapList at h
  cases hfa : f a <;> rw [hfa] at h
  · exact (Option.noConfusion h)
  · cases hrec : optionMapList f l <;> rw [hrec] at h
    · exact (Option.noConfusion h)
    · exact ⟨_, _, rfl, rfl, (Option.some.injEq _ _ ▸ h).symm⟩

theorem optionMapList_length {α β : Type} (f : α → Option β) (l : List α) (r : List β)
    (h : optionMapList f l = some r) : r.length = l.length := by
  induction l generalizing r with
  | nil =>
    unfold optionMapList at h
    cases h
    rfl
  | cons a t ih =>
    obtain ⟨b, bs, _, h2, h3⟩ := optionMapList_cons_some f a t r h
    subst h3
    simp [ih bs h2]

theorem optionMapList_get {α β : Type} (f : α → Option β) (l : List α) (r : List β)
    (h : optionMapList f l = some r) (i : Nat) (hi : i < l.length) (hr : i < r.length) :
    f (l.get ⟨i, hi⟩) = some (r.get ⟨i, hr⟩) := by
  induction l generalizing r i with
  | nil => exact absurd hi (by simp)
  | cons a t ih =>
    obtain ⟨b, bs, h1, h2, h3⟩ := optionMapList_cons_some f a t r h
    subst h3
    cases i with
    | zero => simpa using h1
    | succ j =>
      exact ih bs h2 j (by simpa using hi) (by simpa using hr)

theorem exceptMapList_cons_ok {ε α β : Type} (f : α → Except ε β) (a : α) (l : List α)
    (r : List β) (h : exceptMapList f (a :: l) = .ok r) :
    ∃ b bs, f a = .ok b ∧ exceptMapList f l = .ok bs ∧ r = b :: bs := by
  unfold exceptMapList at h
  cases hfa : f a <;> rw [hfa] at h
  · exact (Except.noConfusion h)
  · cases hrec : exceptMapList f l <;> rw [hrec] at h
    · exact (Except.noConfusion h)
    · injection h with h2
      exact ⟨_, _, rfl, rfl, h2.symm⟩

theorem exceptMapList_length {ε α β : Type} (f : α → Except ε β) (l : List α) (r : List β)
    (h : exceptMapList f l = .ok r) : r.length = l.length := by
  induction l generalizing r with
  | nil =>
    unfold exceptMapList at h
    cases h
    rfl
  | cons a t ih =>
    obtain ⟨b, bs, _, h2, h3⟩ := exceptMapList_cons_ok f a t r h
    subst h3
    simp [ih bs h2]

theorem exceptMapList_get {ε α β : Type} (f : α → Except ε β) (l : List α) (r : List β)
    (h : exceptMapList f l = .ok r) (i : Nat) (hi : i < l.length) (hr : i < r.length) :
    f (l.get ⟨i, hi⟩) = .ok (r.get ⟨i, hr⟩) := by
  induction l generalizing r i with
  | nil => exact absurd hi (by simp)
  | cons a t ih =>
    obtain ⟨b, bs, h1, h2, h3⟩ := exceptMapList_cons_ok f a t r h
    subst h3
    cases i with
    | zero => simpa using h1
    | succ j =>
      exact ih bs h2 j (by simpa using hi) (by simpa using hr)

theorem exceptMapList_ok_of_all {ε α β : Type} (f : α → Except ε β) (g : α → β)
    (l : List α) (h : ∀ a ∈ l, f a = .ok (g a)) :
    exceptMapList f l = .ok (l.map g) := by
  induction l with
  | nil => rfl
  | cons a t ih =>
    unfold exceptMapList
    rw [h a (List.mem_cons_self a t), ih (fun x hx => h x (List.mem_cons_of_mem a hx))]
    rfl

theorem checkPathsTrace_all_ok (fs : List String) (paths : List String)
    (h : ∀ p ∈ paths, p ∈ fs) : checkPathsTrace fs paths = (paths, .ok ()) := by
  induction paths with
  | nil => rfl
  | cons p ps ih =>
    unfold checkPathsTrace
    rw [if_pos (h p (List.mem_cons_self p ps)),
      ih (fun q hq => h q (List.mem_cons_of_mem p hq))]

theorem decideChunks_list_eq (l : List Int) (n : Nat) :
    decideChunks (.chunkList l) n =
      if (l.all fun c => decide (c ∈ (List.range n).map Int.ofNat)) = true then .ok l
      else .error .invalidChunks := rfl

theorem mem_rangeInt (n : Nat) (c : Int) :
    c ∈ (List.range n).map Int.ofNat ↔ 0 ≤ c ∧ c < (n : Int) := by
  simp only [List.mem_map, List.mem_range, Int.ofNat_eq_natCast]
  constructor
  · rintro ⟨a, ha, hac⟩
    omega
  · intro hc
    exact ⟨c.toNat, by omega, by omega⟩

/-! ## C1: the bond-record example -/

/-- C1 (counterexample): parsing the claim's bond record
`"1 1 2 2 3 0.0 0.0 0.0 0.0 0.9 0.8"` with the bond frame parser at
`n_atoms = 3` stores the value 0.0 — not 0.9 — at (0, 1) and 0.0 — not
0.8 — at (0, 2): `__process_bond_step` first drops the record's final
three tokens and then reads the bond orders from token position `k + 4`
on, which for this record are `0.0` fields, so the claimed non-zero
entries 0.9 and 0.8 do not appear. -/
theorem c1_bond_record_values_counterexample :
    (processBondStep 3 ["100", "1 1 2 2 3 0.0 0.0 0.0 0.0 0.9 0.8"]).map
        (fun f => (f.entry 0 1, f.entry 0 2)) = some (0, 0) ∧
    (0 : ℚ) ≠ mkRat 9 10 ∧ (0 : ℚ) ≠ mkRat 8 10 := by
  refine ⟨?_, by decide, by decide⟩
  have h : processBondStep 3 ["100", "1 1 2 2 3 0.0 0.0 0.0 0.0 0.9 0.8"] =
      some ⟨100, 3, [(0, 1, 0), (0, 2, 0)]⟩ := by decide
  rw [h]
  simp [BondFrameC.entry]

/-- C1 (amended): with the bond orders where the parser reads them — right
after the molecule-id field, with three trailing ignored fields after them,
i.e. the record `"1 1 2 2 3 0.0 0.9 0.8 1.7 0.0 0.0"` — parsing yields, for
every `n_atoms ≥ 3`, a sparse matrix of shape `(n_atoms, n_atoms)` whose
only two non-zero entries are `(0, 1) = 0.9` and `(0, 2) = 0.8`. -/
theorem c1_bond_record_parse (n : Nat) (h : 3 ≤ n) :
    processBondStep n ["100", "1 1 2 2 3 0.0 0.9 0.8 1.7 0.0 0.0"] =
      some ⟨100, n, [(0, 1, mkRat 9 10), (0, 2, mkRat 8 10)]⟩ ∧
    ∀ r c : Int,
      (BondFrameC.mk 100 n [(0, 1, mkRat 9 10), (0, 2, mkRat 8 10)]).entry r c =
        if r = 0 ∧ c = 1 then mkRat 9 10
        else if r = 0 ∧ c = 2 then mkRat 8 10
        else 0 := by
  constructor
  · have h0 : processBondStep n ["100", "1 1 2 2 3 0.0 0.9 0.8 1.7 0.0 0.0"] =
        Option.bind (cooTriples n [0, 0] [1, 2] [mkRat 9 10, mkRat 8 10])
          (fun t => some ⟨100, n, t⟩) := rfl
    rw [h0]
    simp only [cooTriples]
    rw [if_pos (by decide : ([0, 0] : List Int).length = ([1, 2] : List Int).length ∧
      ([1, 2] : List Int).length = ([mkRat 9 10, mkRat 8 10] : List ℚ).length)]
    rw [(by rfl : ([0, 0] : List Int).zip (([1, 2] : List Int).zip
      ([mkRat 9 10, mkRat 8 10] : List ℚ)) = [(0, 1, mkRat 9 10), (0, 2, mkRat 8 10)])]
    have hall : (([(0, 1, mkRat 9 10), (0, 2, mkRat 8 10)] : List (Int × Int × ℚ)).all
        (fun t => decide (0 ≤ t.1 ∧ t.1 < (n : Int)) &&
          decide (0 ≤ t.2.1 ∧ t.2.1 < (n : Int)))) = true := by
      simp only [List.all_cons, List.all_nil, Bool.and_true, Bool.and_eq_true,
        decide_eq_true_eq]
      omega
    rw [if_pos hall]
    rfl
  · intro r c
    by_cases h1 : r = 0
    · subst h1
      by_cases h2 : c = 1
      · subst h2; simp [BondFrameC.entry]
      · by_cases h3 : c = 2
        · subst h3; simp [BondFrameC.entry]
        · simp [BondFrameC.entry, h2, h3, eq_comm]
    · simp [BondFrameC.entry, h1, eq_comm]

/-- C1 (witness): the amended theorem applied at `n_atoms = 3`. -/
theorem c1_bond_record_parse_witness :
    3 ≤ 3 ∧
    processBondStep 3 ["100", "1 1 2 2 3 0.0 0.9 0.8 1.7 0.0 0.0"] =
      some ⟨100, 3, [(0, 1, mkRat 9 10), (0, 2, mkRat 8 10)]⟩ :=
  ⟨by decide, (c1_bond_record_parse 3 (by decide)).1⟩

/-! ## C3: path resolution -/

/-- C3 (counterexample): for the requested chunk set `{0, 1}` supplied as
the list `[1, 0]` (with `n_chunks = 2` and both files present), path
resolution succeeds but returns the paths in the caller's order — chunk 1
before chunk 0 — not in ascending-chunk order as claimed. -/
theorem c3_order_counterexample :
    resolveDataFiles ["d/1/log_out_s_1", "d/0/log_out_s_0"] "d" "s" "log"
      (.chunkList [1, 0]) 2 = .ok ["d/1/log_out_s_1", "d/0/log_out_s_0"] ∧
    resolveDataFiles ["d/1/log_out_s_1", "d/0/log_out_s_0"] "d" "s" "log"
      (.chunkList [1, 0]) 2 ≠ .ok ["d/0/log_out_s_0", "d/1/log_out_s_1"] :=
  ⟨by decide, by decide⟩

/-- C3 (amended): for every requested chunk list whose entries all lie in
`[0, n_chunks)` and whose files exist, path resolution returns exactly one
path per requested entry, in the order requested (ascending exactly when
the request is ascending; `None` requests all chunks ascending); for every
request containing an entry outside `[0, n_chunks)` it raises
`InvalidChunks`. -/
theorem c3_path_resolution (fs : List String) (base simId kind : String)
    (pr : String × String) (l : List Int) (n : Nat) :
    (fileKindInfo kind = some pr →
     (∀ c ∈ l, 0 ≤ c ∧ c < (n : Int)) →
     (∀ c ∈ l, chunkPath base simId pr.1 pr.2 c ∈ fs) →
     resolveDataFiles fs base simId kind (.chunkList l) n =
       .ok (l.map (chunkPath base simId pr.1 pr.2))) ∧
    ((∃ c ∈ l, ¬(0 ≤ c ∧ c < (n : Int))) →
     resolveDataFiles fs base simId kind (.chunkList l) n = .error .invalidChunks) := by
  constructor
  · intro hk hbound hex
    have hd : decideChunks (.chunkList l) n = .ok l := by
      rw [decideChunks_list_eq]
      refine if_pos ?_
      simp only [List.all_eq_true, decide_eq_true_eq]
      intro c hc
      exact (mem_rangeInt n c).mpr (hbound c hc)
    unfold resolveDataFiles
    rw [hd]
    show getDataFiles fs base simId kind l = _
    unfold getDataFiles
    rw [hk]
    refine exceptMapList_ok_of_all _ _ l (fun c hc => ?_)
    show (if chunkPath base simId pr.1 pr.2 c ∈ fs
        then Except.ok (chunkPath base simId pr.1 pr.2 c)
        else Except.error ResolveError.assertionError) = _
    rw [if_pos (hex c hc)]
  · rintro ⟨c, hc, hbad⟩
    have hd : decideChunks (.chunkList l) n = .error .invalidChunks := by
      rw [decideChunks_list_eq]
      refine if_neg ?_
      simp only [List.all_eq_true, decide_eq_true_eq]
      intro hall
      exact hbad ((mem_rangeInt n c).mp (hall c hc))
    unfold resolveDataFiles
    rw [hd]

/-- C3 (witness): the amended theorem applied to the in-range ascending
request `[0, 1]` and to the out-of-range request `[5]`, both with
`n_chunks = 2`. -/
theorem c3_path_resolution_witness :
    resolveDataFiles ["d/0/log_out_s_0", "d/1/log_out_s_1"] "d" "s" "log"
      (.chunkList [0, 1]) 2 = .ok ["d/0/log_out_s_0", "d/1/log_out_s_1"] ∧
    resolveDataFiles [] "d" "s" "log" (.chunkList [5]) 2 = .error .invalidChunks := by
  constructor
  · have h := (c3_path_resolution ["d/0/log_out_s_0", "d/1/log_out_s_1"] "d" "s" "log"
      ("log_out", "") [0, 1] 2).1 (by decide) (by decide) (by decide)
    exact h
  · exact (c3_path_resolution [] "d" "s" "log" ("log_out", "") [5] 2).2
      ⟨5, by decide, by decide⟩

/-! ## C4: species header/data mismatch -/

/-- C4 (counterexample): the species segment whose header row carries two
species names (`H2O`, `NaCl`) but whose data row carries only one
per-species count does not fail: `zip` truncates to the shorter operand
and the parser returns a frame mapping only `H2O`. -/
theorem c4_species_mismatch_counterexample :
    processSpeciesStep ["# id H2O NaCl", "100 50 2 30"] =
      some ⟨100, 50, 2, [("H2O", 30)]⟩ ∧
    processSpeciesStep ["# id H2O NaCl", "100 50 2 30"] ≠ none :=
  ⟨by decide, by decide⟩


/-- C4 (amended): for every two-line species segment whose numeric fields
parse, the parser returns a frame whatever the column counts are: the
species mapping is the positional zip of the header's species names with
the data row's per-species counts, truncated to the shorter of the two —
a header/data column-count disagreement silently drops the extras instead
of failing. -/
theorem c4_species_zip_truncates (h d : String) (header : List (List Char))
    (t m s : List Char) (counts : List (List Char)) (tv mv sv : Int)
    (sp : List (String × Int))
    (hh : pySplitWs h.data = header)
    (hd : pySplitWs d.data = t :: m :: s :: counts)
    (ht : pyInt t = some tv) (hm : pyInt m = some mv) (hs : pyInt s = some sv)
    (hsp : optionMapList (fun q => (pyInt q.2).map (fun v => (String.mk q.1, v)))
      ((header.drop 2).zip counts) = some sp) :
    processSpeciesStep [h, d] = some ⟨tv, mv, sv, sp⟩ ∧
    sp.length = min (header.length - 2) counts.length := by
  constructor
  · show (let hdr := pySplitWs h.data
          let data := pySplitWs d.data
          match data with
          | [] => none
          | t0 :: data' => do
            let ts ← pyInt t0
            let m0 ← data'.get? 0
            let mm ← pyInt m0
            let s0 ← data'.get? 1
            let ss ← pyInt s0
            let pairs := (hdr.drop 2).zip (data'.drop 2)
            let spx ← optionMapList
              (fun q => (pyInt q.2).map (fun v => (String.mk q.1, v))) pairs
            some (⟨ts, mm, ss, spx⟩ : SpeciesFrame)) = some ⟨tv, mv, sv, sp⟩
    simp only [hh, hd]
    simp only [List.get?_cons_zero, List.get?_cons_succ, List.drop_succ_cons,
      List.drop_zero]
    rw [ht]
    simp only [Option.bind_eq_bind, Option.some_bind]
    rw [hm]
    simp only [Option.bind_eq_bind, Option.some_bind]
    rw [hs]
    simp only [Option.bind_eq_bind, Option.some_bind]
    rw [hsp]
    simp only [Option.bind_eq_bind, Option.some_bind]
  · have h1 := optionMapList_length _ _ _ hsp
    rw [h1, List.length_zip, List.length_drop]

/-- C4 (witness): the amended theorem applied to the mismatched segment
(two header species names, one data count). -/
theorem c4_species_zip_truncates_witness :
    pySplitWs ("100 50 2 30".data) = "100".data :: "50".data :: "2".data :: ["30".data] ∧
    processSpeciesStep ["# id H2O NaCl", "100 50 2 30"] = some ⟨100, 50, 2, [("H2O", 30)]⟩ ∧
    ([("H2O", 30)] : List (String × Int)).length =
      min ((pySplitWs ("# id H2O NaCl".data)).length - 2)
        (["30".data] : List (List Char)).length := by
  refine ⟨by decide, ?_, ?_⟩
  · exact (c4_species_zip_truncates "# id H2O NaCl" "100 50 2 30"
      (pySplitWs ("# id H2O NaCl".data)) ("100".data) ("50".data) ("2".data)
      ["30".data] 100 50 2 [("H2O", 30)] rfl (by decide) (by decide) (by decide)
      (by decide) (by decide)).1
  · exact (c4_species_zip_truncates "# id H2O NaCl" "100 50 2 30"
      (pySplitWs ("# id H2O NaCl".data)) ("100".data) ("50".data) ("2".data)
      ["30".data] 100 50 2 [("H2O", 30)] rfl (by decide) (by decide) (by decide)
      (by decide) (by decide)).2

/-! ## C6: `read_trajectory` format validation order -/

/-- C6 (counterexample): calling `read_trajectory` with the invalid format
`"csv"` on a one-chunk simulation whose trajectory file exists raises
`InvalidFormat`, but only after an existence check was performed: the I/O
trace is non-empty — the file was resolved and checked before the format
was examined, contradicting "before any I/O". -/
theorem c6_io_before_format_counterexample :
    readTrajectoryTrace ["d/0/dat_trajectory_s_0.dump"] "d" "s" [0] "csv" =
      (["d/0/dat_trajectory_s_0.dump"], .error .invalidFormat) ∧
    (["d/0/dat_trajectory_s_0.dump"] : List String) ≠ [] :=
  ⟨by decide, by decide⟩

/-- C6 (amended): for every call with a format outside
`{"xarray", "frame"}` whose resolved files all exist, `read_trajectory`
raises `InvalidFormat` — but only after every chunk's trajectory path has
been resolved and existence-checked (the corpus expression, including
`__get_data_files` with its `check_path` asserts, runs before the format
dispatch). -/
theorem c6_invalid_format_after_io (fs : List String) (base simId : String)
    (chunks : List Int) (format : String)
    (hf : format ∉ validTrajFormats)
    (hex : ∀ c ∈ chunks, chunkPath base simId "dat_trajectory" ".dump" c ∈ fs) :
    readTrajectoryTrace fs base simId chunks format =
      (chunks.map (chunkPath base simId "dat_trajectory" ".dump"), .error .invalidFormat) := by
  have h1 : ¬ format = "xarray" := fun hh => hf (by rw [hh]; simp [validTrajFormats])
  have h2 : ¬ format = "frame" := fun hh => hf (by rw [hh]; simp [validTrajFormats])
  have hck := checkPathsTrace_all_ok fs
    (chunks.map (chunkPath base simId "dat_trajectory" ".dump"))
    (fun p hp => by
      obtain ⟨c, hc, rfl⟩ := List.mem_map.mp hp
      exact hex c hc)
  unfold readTrajectoryTrace
  simp only [fileKindInfo]
  rw [hck]
  simp [h1, h2]

/-- C6 (witness): the amended theorem applied to format `"csv"` with one
existing chunk file. -/
theorem c6_invalid_format_after_io_witness :
    ("csv" ∉ validTrajFormats) ∧
    readTrajectoryTrace ["d/0/dat_trajectory_s_0.dump"] "d" "s" [0] "csv" =
      ([0].map (chunkPath "d" "s" "dat_trajectory" ".dump"), .error .invalidFormat) :=
  ⟨by decide, c6_invalid_format_after_io ["d/0/dat_trajectory_s_0.dump"] "d" "s" [0] "csv"
    (by decide) (by decide)⟩

/-! ## C10: `read_thermo` has no lazy mode -/

/-- C10 (confirmed): `read_thermo` materializes the merged thermo table
immediately and stores it whatever the `eager` flag is, while
`read_trajectory`, `read_bonds` and `read_species` under `eager = False`
store the still-lazy pipeline. -/
theorem c10_thermo_always_materialized :
    ∀ (eager : Bool) (n : Nat) (files texts : List String) (ss : ℚ),
      (readThermoStore eager texts ss).isMaterialized = true ∧
      (readBondsStore false n files).isMaterialized = false ∧
      (readSpeciesStore false files).isMaterialized = false ∧
      (readTrajStore false files).isMaterialized = false := by
  intro eager n files texts ss
  exact ⟨rfl, rfl, rfl, rfl⟩

/-! ## C9 and C7: trajectory parser labels -/

theorem processTrajItem_some (acc : TrajFrame) (item lab header data : String)
    (hsearch : itemSearch item = some (lab, header, data)) :
    processTrajItem acc item = processTrajItemCore acc lab header data := by
  unfold processTrajItem
  rw [hsearch]

theorem processTrajItem_none (acc : TrajFrame) (item : String)
    (hsearch : itemSearch item = none) :
    processTrajItem acc item = .error .attributeError := by
  unfold processTrajItem
  rw [hsearch]

theorem trajBodyOk_some (item lab header data : String)
    (hsearch : itemSearch item = some (lab, header, data)) :
    trajBodyOk item = trajBodyOkCore lab header data := by
  unfold trajBodyOk
  rw [hsearch]

theorem processTrajItemCore_nAtoms (acc : TrajFrame) (lab header data : String)
    (f : TrajFrame) (h : processTrajItemCore acc lab header data = .ok f) :
    f.nAtoms = acc.nAtoms := by
  unfold processTrajItemCore at h
  by_cases hval : String.mk (stripWs lab.data) ∉ validTrajItems
  · rw [if_pos hval] at h
    exact Except.noConfusion h
  · rw [if_neg hval] at h
    by_cases hbb : String.mk (stripWs lab.data) = "BOX BOUNDS"
    · rw [if_pos hbb] at h
      cases hb : optionMapList (fun ln => optionMapList pyFloat (pySplitWs ln))
          ((splitOnChar '\n' data.data).dropLast) <;> rw [hb] at h
      · exact Except.noConfusion h
      · injection h with h2
        rw [← h2]
    · rw [if_neg hbb] at h
      by_cases hat : String.mk (stripWs lab.data) = "ATOMS"
      · rw [if_pos hat] at h
        cases hb : parseAtoms header data <;> rw [hb] at h
        · exact Except.noConfusion h
        · injection h with h2
          rw [← h2]
      · rw [if_neg hat] at h
        injection h with h2
        rw [← h2]

theorem processTrajItem_nAtoms (acc : TrajFrame) (item : String) (f : TrajFrame)
    (h : processTrajItem acc item = .ok f) : f.nAtoms = acc.nAtoms := by
  cases hsearch : itemSearch item with
  | none =>
    rw [processTrajItem_none acc item hsearch] at h
    exact Except.noConfusion h
  | some trip =>
    obtain ⟨lab, header, data⟩ := trip
    rw [processTrajItem_some acc item lab header data hsearch] at h
    exact processTrajItemCore_nAtoms acc lab header data f h

theorem exceptFoldl_trajItem_nAtoms (items : List String) (acc f : TrajFrame)
    (h : exceptFoldl processTrajItem acc items = .ok f) : f.nAtoms = acc.nAtoms := by
  induction items generalizing acc with
  | nil =>
    unfold exceptFoldl at h
    injection h with h2
    rw [← h2]
  | cons a rest ih =>
    unfold exceptFoldl at h
    cases hstep : processTrajItem acc a <;> rw [hstep] at h
    · exact Except.noConfusion h
    · next acc2 =>
      rw [ih acc2 h, processTrajItem_nAtoms acc a acc2 hstep]

theorem processTrajStep_cons (t : String) (items : List String) :
    processTrajStep (t :: items) =
      match pyInt (stripWs t.data) with
      | none => .error .valueError
      | some ts => exceptFoldl processTrajItem ⟨ts, none, none, none⟩ items := rfl

/-- C9 (amended): the `NUMBER OF ATOMS` label is recognized without error,
but its body is never extracted: the assignment is commented out in the
source, so every successfully parsed trajectory frame keeps the initial
placeholder (`""`, embedded as `none`) in its `n_atoms` field. -/
theorem c9_natoms_never_extracted (stepText : List String) (f : TrajFrame)
    (h : processTrajStep stepText = .ok f) : f.nAtoms = none := by
  match stepText with
  | [] => exact Except.noConfusion h
  | t :: items =>
    rw [processTrajStep_cons] at h
    cases hts : pyInt (stripWs t.data) <;> rw [hts] at h
    · exact Except.noConfusion h
    · exact exceptFoldl_trajItem_nAtoms items _ f h

theorem trajBodyOk_none (item : String) (hsearch : itemSearch item = none) :
    trajBodyOk item = false := by
  unfold trajBodyOk
  rw [hsearch]

theorem labelOf_some (item lab header data : String)
    (hsearch : itemSearch item = some (lab, header, data)) :
    labelOf item = some (String.mk (stripWs lab.data)) := by
  unfold labelOf
  rw [hsearch]
  rfl

theorem processTrajItemCore_invalid (acc : TrajFrame) (lab header data : String)
    (hinv : String.mk (stripWs lab.data) ∉ validTrajItems) :
    processTrajItemCore acc lab header data = .error .invalidItem := by
  unfold processTrajItemCore
  rw [if_pos hinv]

theorem processTrajItemCore_ok (acc : TrajFrame) (lab header data : String)
    (hval : String.mk (stripWs lab.data) ∈ validTrajItems)
    (hb : trajBodyOkCore lab header data = true) :
    ∃ f, processTrajItemCore acc lab header data = .ok f := by
  unfold processTrajItemCore
  unfold trajBodyOkCore at hb
  rw [if_neg (not_not_intro hval)]
  by_cases hbb : String.mk (stripWs lab.data) = "BOX BOUNDS"
  · rw [if_pos hbb]
    rw [if_pos hbb] at hb
    cases hopt : optionMapList (fun ln => optionMapList pyFloat (pySplitWs ln))
        ((splitOnChar '\n' data.data).dropLast)
    · exact absurd hb (by simp [hopt])
    · exact ⟨_, rfl⟩
  · rw [if_neg hbb]
    rw [if_neg hbb] at hb
    by_cases hat : String.mk (stripWs lab.data) = "ATOMS"
    · rw [if_pos hat]
      rw [if_pos hat] at hb
      cases hopt : parseAtoms header data
      · exact absurd hb (by simp [hopt])
      · exact ⟨_, rfl⟩
    · rw [if_neg hat]
      exact ⟨acc, rfl⟩

theorem processTrajItemCore_ne_invalid (acc : TrajFrame) (lab header data : String)
    (hval : String.mk (stripWs lab.data) ∈ validTrajItems) (e : PyErr)
    (h : processTrajItemCore acc lab header data = .error e) : e ≠ .invalidItem := by
  unfold processTrajItemCore at h
  rw [if_neg (not_not_intro hval)] at h
  by_cases hbb : String.mk (stripWs lab.data) = "BOX BOUNDS"
  · rw [if_pos hbb] at h
    cases hopt : optionMapList (fun ln => optionMapList pyFloat (pySplitWs ln))
        ((splitOnChar '\n' data.data).dropLast) <;> rw [hopt] at h
    · injection h with h2
      rw [← h2]
      decide
    · exact Except.noConfusion h
  · rw [if_neg hbb] at h
    by_cases hat : String.mk (stripWs lab.data) = "ATOMS"
    · rw [if_pos hat] at h
      cases hopt : parseAtoms header data <;> rw [hopt] at h
      · injection h with h2
        rw [← h2]
        decide
      · exact Except.noConfusion h
    · rw [if_neg hat] at h
      exact Except.noConfusion h

theorem exceptFoldl_invalid_label (items : List String)
    (hbody : ∀ item ∈ items, trajBodyOk item = true)
    (hinv : hasInvalidLabel items = true) :
    ∀ acc, exceptFoldl processTrajItem acc items = .error .invalidItem := by
  induction items with
  | nil => exact absurd hinv (by simp [hasInvalidLabel])
  | cons a rest ih =>
    intro acc
    cases hsearch : itemSearch a with
    | none =>
      have hba := hbody a (List.mem_cons_self a rest)
      rw [trajBodyOk_none a hsearch] at hba
      exact absurd hba (by simp)
    | some trip =>
      obtain ⟨lab, hd, da⟩ := trip
      have hba : trajBodyOkCore lab hd da = true := by
        have h0 := hbody a (List.mem_cons_self a rest)
        rwa [trajBodyOk_some a lab hd da hsearch] at h0
      by_cases hval : String.mk (stripWs lab.data) ∈ validTrajItems
      · obtain ⟨f', hok⟩ := processTrajItemCore_ok acc lab hd da hval hba
        unfold exceptFoldl
        rw [processTrajItem_some acc a lab hd da hsearch, hok]
        have hinvrest : hasInvalidLabel rest = true := by
          unfold hasInvalidLabel at hinv ⊢
          rw [List.any_cons] at hinv
          cases hrest : rest.any (fun it =>
              match labelOf it with
              | some l => decide (l ∉ validTrajItems)
              | none => false) with
          | true => rfl
          | false =>
            rw [hrest, Bool.or_false] at hinv
            have h1 : (match labelOf a with
                | some l => decide (l ∉ validTrajItems)
                | none => false) = true := hinv
            rw [labelOf_some a lab hd da hsearch] at h1
            simp only [decide_eq_true_eq] at h1
            exact absurd hval h1
        exact ih (fun item hm => hbody item (List.mem_cons_of_mem a hm)) hinvrest f'
      · unfold exceptFoldl
        rw [processTrajItem_some acc a lab hd da hsearch,
          processTrajItemCore_invalid acc lab hd da hval]

theorem processTrajItem_ne_invalid (item : String) (hval : labelIsValid item = true)
    (acc : TrajFrame) (e : PyErr) (h : processTrajItem acc item = .error e) :
    e ≠ .invalidItem := by
  cases hsearch : itemSearch item with
  | none =>
    rw [processTrajItem_none acc item hsearch] at h
    injection h with h2
    rw [← h2]
    decide
  | some trip =>
    obtain ⟨lab, hd, da⟩ := trip
    have hv : String.mk (stripWs lab.data) ∈ validTrajItems := by
      unfold labelIsValid at hval
      rw [labelOf_some item lab hd da hsearch] at hval
      simpa using hval
    rw [processTrajItem_some acc item lab hd da hsearch] at h
    exact processTrajItemCore_ne_invalid acc lab hd da hv e h

theorem exceptFoldl_ne_invalid (items : List String)
    (hval : ∀ item ∈ items, labelIsValid item = true) :
    ∀ (acc : TrajFrame) (e : PyErr),
      exceptFoldl processTrajItem acc items = .error e → e ≠ .invalidItem := by
  induction items with
  | nil =>
    intro acc e h
    exact Except.noConfusion h
  | cons a rest ih =>
    intro acc e h
    unfold exceptFoldl at h
    cases hstep : processTrajItem acc a <;> rw [hstep] at h
    · injection h with h2
      rw [h2] at hstep
      exact processTrajItem_ne_invalid a (hval a (List.mem_cons_self a rest)) acc e hstep
    · exact ih (fun item hm => hval item (List.mem_cons_of_mem a hm)) _ e h

/-- C7 (confirmed): for every trajectory segment (a timestep token whose
`int` parse succeeds, followed by items each matching the sub-block
structure with parseable bodies), the parser fails with `InvalidItem`
exactly when some item's extracted label is outside
`{NUMBER OF ATOMS, BOX BOUNDS, ATOMS, DIMENSIONS}`; and whenever every
extracted label is in the set, the parser never raises `InvalidItem`. -/
theorem c7_invalid_item (t : String) (items : List String) :
    ((pyInt (stripWs t.data)).isSome = true →
     (∀ item ∈ items, trajBodyOk item = true) →
     hasInvalidLabel items = true →
     processTrajStep (t :: items) = .error .invalidItem) ∧
    ((∀ item ∈ items, labelIsValid item = true) →
     processTrajStep (t :: items) ≠ .error .invalidItem) := by
  constructor
  · intro hts hbody hinv
    rw [processTrajStep_cons]
    obtain ⟨ts, hts2⟩ := Option.isSome_iff_exists.mp hts
    rw [hts2]
    exact exceptFoldl_invalid_label items hbody hinv _
  · intro hval
    rw [processTrajStep_cons]
    cases hts : pyInt (stripWs t.data) with
    | none =>
      intro h
      injection h with h2
      exact PyErr.noConfusion h2
    | some ts =>
      intro h
      exact exceptFoldl_ne_invalid items hval _ _ h rfl

/-- C7 (witness): both halves of the theorem at concrete segments — an
uppercase but unknown label `BOGUS STUFF` raises `InvalidItem`; a segment
with only the valid label `NUMBER OF ATOMS` does not. -/
theorem c7_invalid_item_witness :
    processTrajStep ["\n100\n", "BOGUS STUFF\nabc\n"] = .error .invalidItem ∧
    processTrajStep ["\n100\n", "NUMBER OF ATOMS\n1000\n"] ≠ .error .invalidItem := by
  constructor
  · exact (c7_invalid_item "\n100\n" ["BOGUS STUFF\nabc\n"]).1 (by decide) (by decide) (by decide)
  · exact (c7_invalid_item "\n100\n" ["NUMBER OF ATOMS\n1000\n"]).2 (by decide)

/-- C9 (counterexample): parsing a segment containing the sub-block
`NUMBER OF ATOMS` with body `1000` yields a frame whose `n_atoms` field is
the untouched placeholder, not the integer 1000: the extraction the claim
describes is commented out in `__process_traj_step`. -/
theorem c9_natoms_counterexample :
    Except.map (fun f => f.nAtoms)
      (processTrajStep ["\n100\n", "NUMBER OF ATOMS\n1000\n"]) = .ok none ∧
    (Except.ok (none : Option Int) : Except PyErr (Option Int)) ≠ .ok (some 1000) :=
  ⟨by decide, by decide⟩

/-- C9 (witness): the amended theorem applied to a concrete segment with a
`NUMBER OF ATOMS` sub-block. -/
theorem c9_natoms_never_extracted_witness :
    processTrajStep ["\n100\n", "NUMBER OF ATOMS\n1000\n"] =
      .ok ⟨100, none, none, none⟩ ∧
    (TrajFrame.mk 100 none none none).nAtoms = none :=
  ⟨by decide, c9_natoms_never_extracted ["\n100\n", "NUMBER OF ATOMS\n1000\n"]
    ⟨100, none, none, none⟩ (by decide)⟩

/-! ## C2: no timestep deduplication in the read pipelines -/

/-- C2 (amended): the read pipelines perform no timestep deduplication —
the `.distinct(key=timestep)` steps are commented out in the source.  For
each data kind the produced series corresponds one-to-one, in order, with
the kept segments of the chunk files (ascending chunk order), so a
timestep emitted by several chunks appears once per occurrence; a series
whose timesteps are already unique is passed through unchanged only
because there is nothing to collapse. -/
theorem c2_pipeline_no_dedup (n : Nat) (files : List String) :
    (∀ res, readBondsSeries n files = some res →
      res.length = (keptBondStepTexts files).length ∧
      ∀ i (hi : i < (keptBondStepTexts files).length) (hr : i < res.length),
        processBondStep n ((keptBondStepTexts files).get ⟨i, hi⟩) =
          some (res.get ⟨i, hr⟩)) ∧
    (∀ res, readSpeciesSeries files = some res →
      res.length = (keptSpeciesStepTexts files).length ∧
      ∀ i (hi : i < (keptSpeciesStepTexts files).length) (hr : i < res.length),
        processSpeciesStep ((keptSpeciesStepTexts files).get ⟨i, hi⟩) =
          some (res.get ⟨i, hr⟩)) ∧
    (∀ res, readTrajFrameSeries files = .ok res →
      res.length = (keptTrajStepTexts files).length ∧
      ∀ i (hi : i < (keptTrajStepTexts files).length) (hr : i < res.length),
        processTrajStep ((keptTrajStepTexts files).get ⟨i, hi⟩) =
          .ok (res.get ⟨i, hr⟩)) := by
  refine ⟨fun res h => ⟨?_, ?_⟩, fun res h => ⟨?_, ?_⟩, fun res h => ⟨?_, ?_⟩⟩
  · exact optionMapList_length _ _ _ h
  · intro i hi hr
    exact optionMapList_get _ _ _ h i hi hr
  · exact optionMapList_length _ _ _ h
  · intro i hi hr
    exact optionMapList_get _ _ _ h i hi hr
  · exact exceptMapList_length _ _ _ h
  · intro i hi hr
    exact exceptMapList_get _ _ _ h i hi hr

/-- C2 (counterexample): two bond chunk files sharing the overlapping
timestep 100 yield a series with timesteps `[100, 100, 200]` — two frames
for the shared timestep, not one. -/
theorem c2_dedup_counterexample :
    (readBondsSeries 2 ["# Timestep 100\n1 1 1 2 0.0 0.5 0.0 0.0 0.0\n",
      "# Timestep 100\n1 1 1 2 0.0 0.5 0.0 0.0 0.0\n# Timestep 200\n1 1 1 2 0.0 0.25 0.0 0.0 0.0\n"]).map
        (fun l => l.map BondFrameC.timestep) = some [100, 100, 200] ∧
    ([100, 100, 200] : List Int).count 100 ≠ 1 :=
  ⟨by decide, by decide⟩

/-- C2 (witness): the amended theorem's bond conjunct applied to the two
overlapping chunk files. -/
theorem c2_pipeline_no_dedup_witness :
    readBondsSeries 2 ["# Timestep 100\n1 1 1 2 0.0 0.5 0.0 0.0 0.0\n",
      "# Timestep 100\n1 1 1 2 0.0 0.5 0.0 0.0 0.0\n# Timestep 200\n1 1 1 2 0.0 0.25 0.0 0.0 0.0\n"] =
      some [⟨100, 2, [(0, 1, mkRat 5 10)]⟩, ⟨100, 2, [(0, 1, mkRat 5 10)]⟩,
        ⟨200, 2, [(0, 1, mkRat 25 100)]⟩] ∧
    ([⟨100, 2, [(0, 1, mkRat 5 10)]⟩, ⟨100, 2, [(0, 1, mkRat 5 10)]⟩,
        ⟨200, 2, [(0, 1, mkRat 25 100)]⟩] : List BondFrameC).length =
      (keptBondStepTexts ["# Timestep 100\n1 1 1 2 0.0 0.5 0.0 0.0 0.0\n",
        "# Timestep 100\n1 1 1 2 0.0 0.5 0.0 0.0 0.0\n# Timestep 200\n1 1 1 2 0.0 0.25 0.0 0.0 0.0\n"]).length :=
  ⟨by decide,
    ((c2_pipeline_no_dedup 2 ["# Timestep 100\n1 1 1 2 0.0 0.5 0.0 0.0 0.0\n",
      "# Timestep 100\n1 1 1 2 0.0 0.5 0.0 0.0 0.0\n# Timestep 200\n1 1 1 2 0.0 0.25 0.0 0.0 0.0\n"]).1
      [⟨100, 2, [(0, 1, mkRat 5 10)]⟩, ⟨100, 2, [(0, 1, mkRat 5 10)]⟩,
        ⟨200, 2, [(0, 1, mkRat 25 100)]⟩] (by decide)).1⟩

/-! ## C8: bond matrix shape and summation -/

theorem optionMapList_mem {α β : Type} (f : α → Option β) (l : List α) (r : List β)
    (h : optionMapList f l = some r) (b : β) (hb : b ∈ r) : ∃ a ∈ l, f a = some b := by
  induction l generalizing r with
  | nil =>
    unfold optionMapList at h
    cases h
    exact absurd hb (by simp)
  | cons a t ih =>
    obtain ⟨b0, bs, h1, h2, h3⟩ := optionMapList_cons_some f a t r h
    subst h3
    rcases List.mem_cons.mp hb with hb1 | hb2
    · exact ⟨a, List.mem_cons_self a t, hb1 ▸ h1⟩
    · obtain ⟨a2, ha2, hfa2⟩ := ih bs h2 hb2
      exact ⟨a2, List.mem_cons_of_mem a ha2, hfa2⟩

theorem optionMapList_map_eq {α β γ : Type} (f : α → Option β) (l : List α)
    (r : List β) (h : optionMapList f l = some r) (g : α → γ) (g2 : β → γ)
    (hg : ∀ a b, f a = some b → g a = g2 b) : l.map g = r.map g2 := by
  induction l generalizing r with
  | nil =>
    unfold optionMapList at h
    cases h
    rfl
  | cons a t ih =>
    obtain ⟨b0, bs, h1, h2, h3⟩ := optionMapList_cons_some f a t r h
    subst h3
    simp only [List.map_cons]
    rw [hg a b0 h1, ih bs h2]

theorem bondAligned_some (line : String) (p : BondLineParts)
    (h : bondLineData line = some p) :
    bondAligned line =
      (decide (p.nbs.length = p.k.toNat) && decide (p.vals.length = p.k.toNat)) := by
  unfold bondAligned
  rw [h]

theorem lineContrib_some (r c : Int) (line : String) (p : BondLineParts)
    (h : bondLineData line = some p) :
    lineContrib r c line =
      (((p.nbs.zip p.vals).filter
        (fun q => decide (p.atomId - 1 = r) && decide (q.1 - 1 = c))).map
          (fun q => q.2)).sum := by
  unfold lineContrib
  rw [h]

theorem replicate_zip_map (a : Int) (nbs : List Int) (vals : List ℚ)
    (h : vals.length = nbs.length) :
    (List.replicate nbs.length a).zip ((nbs.map (fun x => x - 1)).zip vals) =
      (nbs.zip vals).map (fun q => (a, q.1 - 1, q.2)) := by
  induction nbs generalizing vals with
  | nil =>
    cases vals with
    | nil => rfl
    | cons v vs => simp at h
  | cons x xs ih =>
    cases vals with
    | nil => simp at h
    | cons v vs =>
      simp only [List.length_cons, List.replicate_succ, List.map_cons,
        List.zip_cons_cons]
      rw [ih vs (by simpa using h)]

theorem zip3_flatten_parts (parts : List BondLineParts)
    (halign : ∀ p ∈ parts, p.nbs.length = p.k.toNat ∧ p.vals.length = p.k.toNat) :
    ((parts.map bondRowIdx).flatten).zip (((parts.map bondColIdx).flatten).zip
      ((parts.map BondLineParts.vals).flatten)) =
    (parts.map (fun p => (p.nbs.zip p.vals).map
      (fun q => (p.atomId - 1, q.1 - 1, q.2)))).flatten := by
  induction parts with
  | nil => rfl
  | cons p ps ih =>
    simp only [List.map_cons, List.flatten_cons]
    have h1 := (halign p (List.mem_cons_self p ps)).1
    have h2 := (halign p (List.mem_cons_self p ps)).2
    have hlen1 : (bondColIdx p).length = p.vals.length := by
      simp [bondColIdx, h1, h2]
    have hlen2 : (bondRowIdx p).length = ((bondColIdx p).zip p.vals).length := by
      simp [bondRowIdx, bondColIdx, List.length_zip, h1, h2]
    rw [List.zip_append hlen1, List.zip_append hlen2]
    have hper : (bondRowIdx p).zip ((bondColIdx p).zip p.vals) =
        (p.nbs.zip p.vals).map (fun q => (p.atomId - 1, q.1 - 1, q.2)) := by
      unfold bondRowIdx bondColIdx
      rw [← h1]
      exact replicate_zip_map (p.atomId - 1) p.nbs p.vals (h2.trans h1.symm)
    rw [hper, ih (fun q hq => halign q (List.mem_cons_of_mem p hq))]

theorem entry_flatten_sum (r c : Int) (parts : List BondLineParts) :
    ((((parts.map (fun p => (p.nbs.zip p.vals).map
          (fun q => (p.atomId - 1, q.1 - 1, q.2)))).flatten).filter
        (fun t => decide (t.1 = r) && decide (t.2.1 = c))).map
          (fun t => t.2.2)).sum =
      (parts.map (fun p => (((p.nbs.zip p.vals).filter
        (fun q => decide (p.atomId - 1 = r) && decide (q.1 - 1 = c))).map
          (fun q => q.2)).sum)).sum := by
  induction parts with
  | nil => rfl
  | cons p ps ih =>
    simp only [List.map_cons, List.flatten_cons, List.filter_append,
      List.map_append, List.sum_append, List.sum_cons]
    rw [ih]
    congr 1
    rw [List.filter_map, List.map_map]
    rfl

/-- C8 (confirmed): every successfully parsed bond frame has shape exactly
`(n_atoms, n_atoms)` whatever the records are; and, for records whose
neighbor and value slices both match the declared bond count, every matrix
entry `(r, c)` is the sum — duplicates summed, not overwritten — of the
bond-order values contributed by records with `atom_id - 1 = r` at
neighbors with `neighbor_id - 1 = c`. -/
theorem c8_bond_matrix_shape_sum (n : Nat) (stepText : List String) (f : BondFrameC)
    (h : processBondStep n stepText = some f) :
    f.n = n ∧
    ((∀ line ∈ stepText.tail, bondAligned line = true) →
     ∀ r c : Int, f.entry r c = (stepText.tail.map (lineContrib r c)).sum) := by
  match stepText with
  | [] => exact Option.noConfusion h
  | t :: rest =>
    have heq : processBondStep n (t :: rest) =
        Option.bind (pyInt t.data) (fun ts =>
          Option.bind (optionMapList bondLineData rest) (fun parts =>
            Option.bind (cooTriples n ((parts.map bondRowIdx).flatten)
                ((parts.map bondColIdx).flatten)
                ((parts.map BondLineParts.vals).flatten))
              (fun triples => some ⟨ts, n, triples⟩))) := rfl
    rw [heq] at h
    rw [Option.bind_eq_some] at h
    obtain ⟨ts, hts, h⟩ := h
    rw [Option.bind_eq_some] at h
    obtain ⟨parts, hparts, h⟩ := h
    rw [Option.bind_eq_some] at h
    obtain ⟨triples, htrip, hf⟩ := h
    injection hf with hf
    subst hf
    refine ⟨rfl, ?_⟩
    intro halign r c
    have halignParts : ∀ p ∈ parts,
        p.nbs.length = p.k.toNat ∧ p.vals.length = p.k.toNat := by
      intro p hp
      obtain ⟨line, hline, hsome⟩ := optionMapList_mem _ _ _ hparts p hp
      have hA := halign line (by simpa using hline)
      rw [bondAligned_some line p hsome] at hA
      simpa using hA
    unfold cooTriples at htrip
    by_cases hlen : ((parts.map bondRowIdx).flatten).length =
        ((parts.map bondColIdx).flatten).length ∧
        ((parts.map bondColIdx).flatten).length =
        ((parts.map BondLineParts.vals).flatten).length
    · rw [if_pos hlen] at htrip
      by_cases hall : ((((parts.map bondRowIdx).flatten).zip
          (((parts.map bondColIdx).flatten).zip
            ((parts.map BondLineParts.vals).flatten))).all (fun t =>
          decide (0 ≤ t.1 ∧ t.1 < (n : Int)) &&
          decide (0 ≤ t.2.1 ∧ t.2.1 < (n : Int)))) = true
      · rw [if_pos hall] at htrip
        injection htrip with htrip
        subst htrip
        simp only [BondFrameC.entry, List.tail_cons]
        rw [zip3_flatten_parts parts halignParts]
        rw [entry_flatten_sum]
        rw [← optionMapList_map_eq bondLineData rest parts hparts
          (lineContrib r c)
          (fun p => (((p.nbs.zip p.vals).filter
            (fun q => decide (p.atomId - 1 = r) && decide (q.1 - 1 = c))).map
              (fun q => q.2)).sum)
          (fun a b hab => lineContrib_some r c a b hab)]
      · rw [if_neg hall] at htrip
        exact Option.noConfusion htrip
    · rw [if_neg hlen] at htrip
      exact Option.noConfusion htrip

/-- C8 (witness): the theorem applied to two records that both write
coordinate (0, 1) with bond order 0.5 — the entry sums to 1, and the shape
is (3, 3). -/
theorem c8_bond_matrix_shape_sum_witness :
    processBondStep 3 ["100", "1 1 1 2 0.0 0.5 0.0 0.0 0.0",
        "1 1 1 2 0.0 0.5 0.0 0.0 0.0"] =
      some ⟨100, 3, [(0, 1, mkRat 5 10), (0, 1, mkRat 5 10)]⟩ ∧
    (BondFrameC.mk 100 3 [(0, 1, mkRat 5 10), (0, 1, mkRat 5 10)]).n = 3 ∧
    (BondFrameC.mk 100 3 [(0, 1, mkRat 5 10), (0, 1, mkRat 5 10)]).entry 0 1 = 1 := by
  refine ⟨by decide, ?_, ?_⟩
  · exact (c8_bond_matrix_shape_sum 3 ["100", "1 1 1 2 0.0 0.5 0.0 0.0 0.0",
      "1 1 1 2 0.0 0.5 0.0 0.0 0.0"]
      ⟨100, 3, [(0, 1, mkRat 5 10), (0, 1, mkRat 5 10)]⟩ (by decide)).1
  · have h2 := (c8_bond_matrix_shape_sum 3 ["100", "1 1 1 2 0.0 0.5 0.0 0.0 0.0",
      "1 1 1 2 0.0 0.5 0.0 0.0 0.0"]
      ⟨100, 3, [(0, 1, mkRat 5 10), (0, 1, mkRat 5 10)]⟩ (by decide)).2 (by decide) 0 1
    rw [h2]
    have hl : bondLineData "1 1 1 2 0.0 0.5 0.0 0.0 0.0" =
        some ⟨1, 1, [2], [mkRat 5 10]⟩ := by decide
    simp only [List.tail_cons, List.map_cons, List.map_nil,
      lineContrib_some 0 1 "1 1 1 2 0.0 0.5 0.0 0.0 0.0" ⟨1, 1, [2], [mkRat 5 10]⟩ hl]
    norm_num [Rat.mkRat_eq_div]

/-! ## C5: the merged thermo table -/

theorem dropDupByFuel_sub {α β : Type} [DecidableEq β] (key : α → β) :
    ∀ (fuel : Nat) (l : List α) (x : α), x ∈ dropDupByFuel key fuel l → x ∈ l := by
  intro fuel
  induction fuel with
  | zero =>
    intro l x hx
    simp [dropDupByFuel] at hx
  | succ fu ih =>
    intro l x hx
    cases l with
    | nil => simp [dropDupByFuel] at hx
    | cons a t =>
      rcases List.mem_cons.mp hx with h1 | h2
      · exact h1 ▸ List.mem_cons_self a t
      · exact List.mem_cons_of_mem a
          (List.mem_of_mem_filter (ih _ x h2))

theorem dropDupByFuel_pairwise {α β : Type} [DecidableEq β] (key : α → β) :
    ∀ (fuel : Nat) (l : List α),
      List.Pairwise (fun a b => key a ≠ key b) (dropDupByFuel key fuel l) := by
  intro fuel
  induction fuel with
  | zero =>
    intro l
    simp [dropDupByFuel]
  | succ fu ih =>
    intro l
    cases l with
    | nil => simp [dropDupByFuel]
    | cons a t =>
      refine List.Pairwise.cons ?_ (ih _)
      intro b hb
      have hb2 := dropDupByFuel_sub key fu _ b hb
      have hb3 := List.of_mem_filter hb2
      simp only [decide_eq_true_eq] at hb3
      exact fun hab => hb3 hab.symm

theorem find?_filter_ne {α β : Type} [DecidableEq β] (key : α → β) (kx ky : β)
    (hne : ky ≠ kx) :
    ∀ (l : List α),
      (l.filter (fun y => decide (key y ≠ kx))).find? (fun a => decide (key a = ky)) =
        l.find? (fun a => decide (key a = ky)) := by
  intro l
  induction l with
  | nil => rfl
  | cons z zs ih =>
    by_cases hz : key z = kx
    · rw [List.filter_cons_of_neg (by simp [hz])]
      rw [List.find?_cons_of_neg _ (by
        simp only [decide_eq_true_eq]
        exact fun h => hne (h.symm.trans hz))]
      exact ih
    · rw [List.filter_cons_of_pos (by simp [hz])]
      by_cases hzy : key z = ky
      · rw [List.find?_cons_of_pos _ (by simp [hzy]),
          List.find?_cons_of_pos _ (by simp [hzy])]
      · rw [List.find?_cons_of_neg _ (by simp [hzy]),
          List.find?_cons_of_neg _ (by simp [hzy])]
        exact ih

theorem dropDupByFuel_find? {α β : Type} [DecidableEq β] (key : α → β) :
    ∀ (fuel : Nat) (l : List α), l.length ≤ fuel →
      ∀ y ∈ dropDupByFuel key fuel l,
        l.find? (fun a => decide (key a = key y)) = some y := by
  intro fuel
  induction fuel with
  | zero =>
    intro l hl y hy
    simp [dropDupByFuel] at hy
  | succ fu ih =>
    intro l hl y hy
    cases l with
    | nil => simp [dropDupByFuel] at hy
    | cons a t =>
      rcases List.mem_cons.mp hy with h1 | h2
      · subst h1
        rw [List.find?_cons_of_pos _ (by simp)]
      · have hyt := dropDupByFuel_sub key fu _ y h2
        have hkey : key y ≠ key a := by
          have h3 := List.of_mem_filter hyt
          simpa using h3
        rw [List.find?_cons_of_neg _ (by
          simp only [decide_eq_true_eq]
          exact fun h => hkey h.symm)]
        have hlen : (t.filter (fun b => decide (key b ≠ key a))).length ≤ fu :=
          le_trans (List.length_filter_le _ _) (by simpa using hl)
        rw [← find?_filter_ne key (key a) (key y) hkey t]
        exact ih _ hlen y h2

theorem dropDupByFuel_complete {α β : Type} [DecidableEq β] (key : α → β) :
    ∀ (fuel : Nat) (l : List α), l.length ≤ fuel →
      ∀ x ∈ l, ∃ y ∈ dropDupByFuel key fuel l, key y = key x := by
  intro fuel
  induction fuel with
  | zero =>
    intro l hl x hx
    rw [Nat.le_zero, List.length_eq_zero] at hl
    subst hl
    exact absurd hx (by simp)
  | succ fu ih =>
    intro l hl x hx
    cases l with
    | nil => exact absurd hx (by simp)
    | cons a t =>
      rcases List.mem_cons.mp hx with h1 | h2
      · exact ⟨a, List.mem_cons_self _ _, by rw [h1]⟩
      · by_cases hk : key x = key a
        · exact ⟨a, List.mem_cons_self _ _, hk.symm⟩
        · have hxf : x ∈ t.filter (fun b => decide (key b ≠ key a)) :=
            List.mem_filter.mpr ⟨h2, by simpa using hk⟩
          have hlen : (t.filter (fun b => decide (key b ≠ key a))).length ≤ fu :=
            le_trans (List.length_filter_le _ _) (by simpa using hl)
          obtain ⟨y, hy, hky⟩ := ih _ hlen x hxf
          exact ⟨y, List.mem_cons_of_mem a hy, hky⟩

theorem mem_of_mem_enum {α : Type} {l : List α} {p : Nat × α} (h : p ∈ l.enum) :
    p.2 ∈ l := by
  have h2 : p.2 ∈ l.enum.map Prod.snd := List.mem_map_of_mem Prod.snd h
  rwa [List.enum_map_snd] at h2

theorem mem_enum_of_mem {α : Type} {l : List α} {a : α} (h : a ∈ l) :
    ∃ i, (i, a) ∈ l.enum := by
  have h2 : a ∈ l.enum.map Prod.snd := by rwa [List.enum_map_snd]
  obtain ⟨p, hp, hpa⟩ := List.mem_map.mp h2
  exact ⟨p.1, by rwa [show (p.1, a) = p from by rw [← hpa]]⟩

theorem pandasDropDupBy_sub {α β : Type} [DecidableEq β] (key : α → β) (l : List α)
    (x : α) (hx : x ∈ pandasDropDupBy key l) : x ∈ l :=
  dropDupByFuel_sub key l.length l x hx

theorem pandasDropDupBy_pairwise {α β : Type} [DecidableEq β] (key : α → β)
    (l : List α) :
    List.Pairwise (fun a b => key a ≠ key b) (pandasDropDupBy key l) :=
  dropDupByFuel_pairwise key l.length l

theorem pandasDropDupBy_find? {α β : Type} [DecidableEq β] (key : α → β)
    (l : List α) (y : α) (hy : y ∈ pandasDropDupBy key l) :
    l.find? (fun a => decide (key a = key y)) = some y :=
  dropDupByFuel_find? key l.length l (le_refl _) y hy

theorem pandasDropDupBy_complete {α β : Type} [DecidableEq β] (key : α → β)
    (l : List α) (x : α) (hx : x ∈ l) :
    ∃ y ∈ pandasDropDupBy key l, key y = key x :=
  dropDupByFuel_complete key l.length l (le_refl _) x hx

theorem pairwise_enum_snd {α : Type} (S : α → α → Prop) (l : List α)
    (h : List.Pairwise S l) : List.Pairwise (fun a b => S a.2 b.2) l.enum := by
  have h2 : List.Pairwise S (l.enum.map Prod.snd) := by rwa [List.enum_map_snd]
  exact List.pairwise_map.mp h2

theorem thermoStep_append (row : List ℚ) (x : ℚ) (h : row ≠ []) :
    thermoStep (row ++ [x]) = thermoStep row := by
  cases row with
  | nil => exact absurd rfl h
  | cons a t => rfl

theorem getLastD_append_single (row : List ℚ) (x : ℚ) :
    (row ++ [x]).getLastD 0 = x := by
  simp

theorem parseThermoLog_headers (t : String) (pr : List String × List (List ℚ))
    (h : parseThermoLog t = some pr) : ∃ tl, pr.1 = "Step" :: tl := by
  have heq : parseThermoLog t =
      (match (pySplitOn "Step".data ((pySplitOn "Loop".data t.data).headD [])).get? 1 with
      | none => none
      | some piece =>
        Option.bind (optionMapList (fun l => optionMapList pyFloat (pySplitWs l))
          (List.drop 1 (splitOnChar '\n' piece)))
          (fun rowsAll => some (("Step" ::
            (pySplitWs ((splitOnChar '\n' piece).headD [])).map String.mk : List String),
            rowsAll.dropLast))) := rfl
  rw [heq] at h
  cases hpiece : (pySplitOn "Step".data ((pySplitOn "Loop".data t.data).headD [])).get? 1 <;>
    rw [hpiece] at h
  · exact Option.noConfusion h
  · rename_i piece
    have h2 : Option.bind (optionMapList (fun l => optionMapList pyFloat (pySplitWs l))
        (List.drop 1 (splitOnChar '\n' piece)))
        (fun rowsAll => some (("Step" ::
          (pySplitWs ((splitOnChar '\n' piece).headD [])).map String.mk : List String),
          rowsAll.dropLast)) = some pr := h
    rw [Option.bind_eq_some] at h2
    obtain ⟨rows0, _, h3⟩ := h2
    injection h3 with h3
    exact ⟨_, by rw [← h3]⟩

theorem thermoConcat_inv (texts : List String) (ss : ℚ) (hd0 : List String)
    (crows : List (Nat × List ℚ)) (h : thermoConcat texts ss = some (hd0, crows)) :
    ∃ parsed, optionMapList parseThermoLog texts = some parsed ∧
      (parsed.all (fun p => decide (p.1 = (parsed.headD (["Step"], [])).1) &&
        p.2.all (fun r => decide (r.length = p.1.length)))) = true ∧
      hd0 = (parsed.headD (["Step"], [])).1 ++ ["Boxtime"] ∧
      crows = ((parsed.map (fun p => p.2.enum)).flatten).map
        (fun r => (r.1, r.2 ++ [thermoStep r.2 * ss])) := by
  have heq : thermoConcat texts ss =
      Option.bind (optionMapList parseThermoLog texts) (fun parsed =>
        if (parsed.all (fun p => decide (p.1 = (parsed.headD (["Step"], [])).1) &&
            p.2.all (fun r => decide (r.length = p.1.length)))) = true then
          some ((parsed.headD (["Step"], [])).1 ++ ["Boxtime"],
            ((parsed.map (fun p => p.2.enum)).flatten).map
              (fun r => (r.1, r.2 ++ [thermoStep r.2 * ss])))
        else none) := rfl
  rw [heq] at h
  rw [Option.bind_eq_some] at h
  obtain ⟨parsed, hp, h2⟩ := h
  by_cases hguard : (parsed.all (fun p =>
      decide (p.1 = (parsed.headD (["Step"], [])).1) &&
      p.2.all (fun r => decide (r.length = p.1.length)))) = true
  · rw [if_pos hguard] at h2
    injection h2 with h2
    rw [Prod.mk.injEq] at h2
    exact ⟨parsed, hp, hguard, h2.1.symm, h2.2.symm⟩
  · rw [if_neg hguard] at h2
    exact Option.noConfusion h2

theorem thermoConcat_row_shape (texts : List String) (ss : ℚ) (hd0 : List String)
    (crows : List (Nat × List ℚ)) (h : thermoConcat texts ss = some (hd0, crows)) :
    ∀ q ∈ crows, ∃ row, row ≠ [] ∧ q.2 = row ++ [thermoStep row * ss] := by
  obtain ⟨parsed, hp, hguard, _, hcrows⟩ := thermoConcat_inv texts ss hd0 crows h
  intro q hq
  rw [hcrows] at hq
  obtain ⟨r0, hr0, hqr⟩ := List.mem_map.mp hq
  obtain ⟨inner, hinner, hr0i⟩ := List.mem_flatten.mp hr0
  obtain ⟨pfile, hpfile, hpe⟩ := List.mem_map.mp hinner
  rw [← hpe] at hr0i
  have hrow : r0.2 ∈ pfile.2 := mem_of_mem_enum hr0i
  have hg := List.all_eq_true.mp hguard pfile hpfile
  simp only [Bool.and_eq_true, decide_eq_true_eq, List.all_eq_true] at hg
  have hlen : r0.2.length = pfile.1.length := by
    have := hg.2 r0.2 hrow
    simpa using this
  obtain ⟨text0, _, hsome0⟩ := optionMapList_mem _ _ _ hp pfile hpfile
  obtain ⟨tl, htl⟩ := parseThermoLog_headers text0 pfile hsome0
  have hne : r0.2 ≠ [] := by
    intro hnil
    rw [hnil] at hlen
    rw [htl] at hlen
    simp at hlen
  exact ⟨r0.2, hne, by rw [← hqr]⟩

/-- C5 (confirmed): for every set of chunk thermo logs that parses, the
merged thermo table has at most one row per distinct `Step` value
(pairwise-distinct step keys), every row's derived `Boxtime` (the appended
last column) equals `Step * step_size` exactly, the row index is a dense
0-based range, and relative to the concatenation stage each kept row is
the first occurrence of its `Step` value in chunk order while every
concatenated `Step` value is still represented. -/
theorem c5_thermo_merge (texts : List String) (ss : ℚ) (hd : List String)
    (rows : List (Nat × List ℚ))
    (h : thermoTable texts ss = some (hd, rows)) :
    List.Pairwise (fun a b => thermoKey a ≠ thermoKey b) rows ∧
    (∀ p ∈ rows, p.2.getLastD 0 = thermoStep p.2 * ss) ∧
    rows.map Prod.fst = List.range rows.length ∧
    (∀ hd0 crows, thermoConcat texts ss = some (hd0, crows) →
      (∀ p ∈ rows, (crows.find? (fun q => decide (thermoKey q = thermoKey p))).map
        Prod.snd = some p.2) ∧
      (∀ q ∈ crows, ∃ p ∈ rows, thermoKey p = thermoKey q)) := by
  have heq : thermoTable texts ss =
      Option.bind (thermoConcat texts ss) (fun c =>
        some (c.1, ((pandasDropDupBy thermoKey c.2).map Prod.snd).enum)) := rfl
  rw [heq] at h
  rw [Option.bind_eq_some] at h
  obtain ⟨c, hc, h2⟩ := h
  injection h2 with h2
  rw [Prod.mk.injEq] at h2
  obtain ⟨hhd, hrows⟩ := h2
  subst hrows
  refine ⟨?_, ?_, ?_, ?_⟩
  · have hpw := pandasDropDupBy_pairwise thermoKey c.2
    have hmap : List.Pairwise (fun x y : List ℚ => thermoStep x ≠ thermoStep y)
        ((pandasDropDupBy thermoKey c.2).map Prod.snd) :=
      List.pairwise_map.mpr hpw
    exact pairwise_enum_snd _ _ hmap
  · intro p hp
    have hsnd : p.2 ∈ (pandasDropDupBy thermoKey c.2).map Prod.snd :=
      mem_of_mem_enum hp
    obtain ⟨y, hyD, hy2⟩ := List.mem_map.mp hsnd
    have hyc : y ∈ c.2 := pandasDropDupBy_sub thermoKey c.2 y hyD
    obtain ⟨row, hrow_ne, hrow⟩ :=
      thermoConcat_row_shape texts ss c.1 c.2 (by rw [Prod.mk.eta]; exact hc) y hyc
    rw [← hy2, hrow]
    rw [getLastD_append_single, thermoStep_append row _ hrow_ne]
  · rw [List.enum_map_fst, List.enum_length]
  · intro hd0 crows hc2
    rw [hc] at hc2
    injection hc2 with hc2
    rw [Prod.mk.injEq] at hc2
    obtain ⟨hhd0, hcrows⟩ := hc2
    subst hcrows
    constructor
    · intro p hp
      have hsnd : p.2 ∈ (pandasDropDupBy thermoKey c.2).map Prod.snd :=
        mem_of_mem_enum hp
      obtain ⟨y, hyD, hy2⟩ := List.mem_map.mp hsnd
      have hfind := pandasDropDupBy_find? thermoKey c.2 y hyD
      have hkeq : thermoKey y = thermoKey p := by
        unfold thermoKey
        rw [hy2]
      rw [← hkeq, hfind]
      simp [hy2]
    · intro q hq
      obtain ⟨y, hyD, hky⟩ := pandasDropDupBy_complete thermoKey c.2 q hq
      have hsnd : y.2 ∈ (pandasDropDupBy thermoKey c.2).map Prod.snd :=
        List.mem_map_of_mem Prod.snd hyD
      obtain ⟨i, hi⟩ := mem_enum_of_mem hsnd
      refine ⟨(i, y.2), hi, ?_⟩
      have : thermoKey (i, y.2) = thermoKey y := rfl
      rw [this, hky]

/-- C5 (witness): the theorem applied to two chunk logs both containing
`Step = 500`: the merged table has steps `[0, 500, 1000]` (one row for the
duplicate), dense index `[0, 1, 2]`, and Boxtime column `[0, 250, 500]`
for `step_size = 1/2`. -/
theorem c5_thermo_merge_witness :
    (thermoTable ["mem\nStep Temp\n0 1.0\n500 2.0\nLoop y",
        "mem\nStep Temp\n500 2.0\n1000 3.0\nLoop y"] (mkRat 1 2)).map
      (fun t => t.2.map (fun r => (r.1, thermoStep r.2))) =
      some [(0, 0), (1, 500), (2, 1000)] ∧
    (thermoTable ["mem\nStep Temp\n0 1.0\n500 2.0\nLoop y",
        "mem\nStep Temp\n500 2.0\n1000 3.0\nLoop y"] (mkRat 1 2)).map
      (fun t => t.2.map (fun r => r.2.getLastD 0)) = some [0, 250, 500] := by
  have h1 : (thermoTable ["mem\nStep Temp\n0 1.0\n500 2.0\nLoop y",
      "mem\nStep Temp\n500 2.0\n1000 3.0\nLoop y"] (mkRat 1 2)).map
      (fun t => t.2.map (fun r => (r.1, thermoStep r.2))) =
      some [(0, 0), (1, 500), (2, 1000)] := by decide
  refine ⟨h1, ?_⟩
  have hiss : (thermoTable ["mem\nStep Temp\n0 1.0\n500 2.0\nLoop y",
      "mem\nStep Temp\n500 2.0\n1000 3.0\nLoop y"] (mkRat 1 2)).isSome = true := by decide
  obtain ⟨tb, htb⟩ := Option.isSome_iff_exists.mp hiss
  have hb := (c5_thermo_merge ["mem\nStep Temp\n0 1.0\n500 2.0\nLoop y",
      "mem\nStep Temp\n500 2.0\n1000 3.0\nLoop y"] (mkRat 1 2) tb.1 tb.2
      (by rw [htb, Prod.mk.eta])).2.1
  rw [htb] at h1 ⊢
  simp only [Option.map_some'] at h1 ⊢
  injection h1 with h1
  have hstepvals : tb.2.map (fun r => thermoStep r.2) = [0, 500, 1000] := by
    have h2 := congrArg (List.map Prod.snd) h1
    rw [List.map_map] at h2
    exact h2
  rw [List.map_congr_left (fun p hp => hb p hp)]
  have h5 : tb.2.map (fun r => thermoStep r.2 * mkRat 1 2) =
      (tb.2.map (fun r => thermoStep r.2)).map (fun x => x * mkRat 1 2) := by
    rw [List.map_map]
    rfl
  rw [h5, hstepvals]
  refine congrArg some ?_
  simp only [List.map_cons, List.map_nil, List.cons.injEq, and_true]
  norm_num [Rat.mkRat_eq_div]
